import Mathlib

/-!
Verification of the request/response correlation, lifecycle and 429-retry core of
the asset-compute client library (JavaScript), via a shallow embedding in Lean 4.

The embedding translates, from the source:
* the 429 backoff/retry engine of src/lib/client-retry.js (the module variant with
  the disable429Retry option, lines 203-315): shouldRetry, retryInvoke, retry;
* the rate-limit error constructor of src/lib/error.js (TooManyRequestsError);
* the pending-rendition counter, event correlation and bounded-wait entry logic of
  src/lib/client.js (completePendingRendition, completeClientEvent, process, wait,
  waitActivation).

JavaScript built-ins that the code calls (parseInt, Date parsing, Math.random,
setTimeout scheduling) are external collaborators; where their exact result matters
the embedding takes it as an explicit input, and where it does not (random backoff
durations, the wall clock driving timeouts) it is left out of the model.
-/

set_option autoImplicit false

namespace AssetComputeClient

/-- A JavaScript error value as observed by the retry engine and by callers:
its name, its numeric code property (absent on plain Error objects), its message
and its retryAfter property in seconds (set only by the 429 error constructor). -/
structure JsError where
  name : String
  code : Option Int
  message : String
  retryAfter : Option Int
  deriving DecidableEq, Repr

/-- Constant MAX_RETRY_ON_HTTP_429 of src/lib/client-retry.js. -/
def MAX_RETRY_ON_HTTP_429 : Nat := 4

/-- Constant TOO_MANY_REQUEST_ERROR of src/lib/client-retry.js. -/
def TOO_MANY_REQUEST_ERROR : String := "TooManyRequestsError"

/-- Constant TOO_MANY_REQUEST_ERROR_CODE of src/lib/client-retry.js. -/
def TOO_MANY_REQUEST_ERROR_CODE : Int := 429

/-- The per-call retry options built by retry (src/lib/client-retry.js lines 305-308). -/
structure RetryOpts where
  max429RetryCount : Nat
  disable429Retry : Bool
  deriving DecidableEq, Repr

/-- shouldRetry of src/lib/client-retry.js (lines 253-263): retry is granted only when
retry is not disabled, the error is the 429 kind (code 429 and name
TooManyRequestsError), and the attempt count is still below the maximum. -/
def shouldRetry (attempt : Nat) (error : JsError) (retryOpts : RetryOpts) : Bool :=
  if retryOpts.disable429Retry then false
  else if error.code = some TOO_MANY_REQUEST_ERROR_CODE ∧ error.name = TOO_MANY_REQUEST_ERROR then
    decide (attempt < retryOpts.max429RetryCount)
  else false

/-- Outcome of invoking the wrapped asynchronous function on a given attempt number
(the oracle standing for asyncFunc together with the remote responses it sees). -/
abbrev AttemptOracle (α : Type) := Nat → Except JsError α

/-- The recursive invoke loop inside retryInvoke (src/lib/client-retry.js lines
277-294), with the total number of invocations of asyncFunc made explicit as the
second component.  The JavaScript loop is guarded only by shouldRetry, which demands
attempt < max429RetryCount, so the loop makes at most max429RetryCount + 1
invocations; the structural fuel argument (initialised to max429RetryCount,
decremented per retry) therefore never runs out while shouldRetry still grants a
retry, and the fuel-exhausted equation below coincides with the retry-denied one. -/
def invokeLoop {α : Type} (outcome : AttemptOracle α) (retryOpts : RetryOpts) :
    Nat → Nat → Except JsError α × Nat
  | attempt, 0 =>
    match outcome attempt with
    | .ok v => (.ok v, attempt + 1)
    | .error e => (.error e, attempt + 1)
  | attempt, Nat.succ fuel =>
    match outcome attempt with
    | .ok v => (.ok v, attempt + 1)
    | .error e =>
      if shouldRetry attempt e retryOpts then
        invokeLoop outcome retryOpts (attempt + 1) fuel
      else (.error e, attempt + 1)

/-- retryInvoke of src/lib/client-retry.js (lines 275-296): start at attempt 0;
on each failure consult shouldRetry, and when retry is denied reject with the
error of the failed attempt itself. -/
def retryInvoke {α : Type} (outcome : AttemptOracle α) (retryOpts : RetryOpts) :
    Except JsError α × Nat :=
  invokeLoop outcome retryOpts 0 retryOpts.max429RetryCount

/-- The caller-supplied retry options as they may arrive at retry: both fields
optional, the whole object possibly absent. -/
structure CallOptions where
  max429RetryCount : Option Nat
  disable429Retry : Option Bool
  deriving DecidableEq, Repr

/-- The options merge in retry (src/lib/client-retry.js lines 304-308):
max429RetryCount falls back to MAX_RETRY_ON_HTTP_429 when absent or 0 (JavaScript
truthiness of the expression with the or operator), disable429Retry falls back to
false. -/
def mkRetryOpts (options : Option CallOptions) : RetryOpts where
  max429RetryCount :=
    match options with
    | some o =>
      match o.max429RetryCount with
      | some n => if n = 0 then MAX_RETRY_ON_HTTP_429 else n
      | none => MAX_RETRY_ON_HTTP_429
    | none => MAX_RETRY_ON_HTTP_429
  disable429Retry :=
    match options with
    | some o => o.disable429Retry.getD false
    | none => false

/-- retry of src/lib/client-retry.js (lines 304-311): build the retry options and
run retryInvoke.  (filterOptions only strips the retry fields from the object
forwarded to asyncFunc, which the oracle already closes over.) -/
def retry {α : Type} (outcome : AttemptOracle α) (options : Option CallOptions) :
    Except JsError α × Nat :=
  retryInvoke outcome (mkRetryOpts options)

/-- A concrete 429 error as produced by the transport for a rate-limited response
with a retry-after of 1 second. -/
def rateLimit429 : JsError :=
  { name := "TooManyRequestsError", code := some 429,
    message := "Too many requests", retryAfter := some 1 }

/-- Structural substring test on character lists (used to state that an error
message does or does not cite a phrase). -/
def charsContain (needle : List Char) : List Char → Bool
  | [] => needle.isEmpty
  | c :: cs => needle.isPrefixOf (c :: cs) || charsContain needle cs

/-- Substring test on strings, by structural recursion over the character list. -/
def strContains (s pat : String) : Bool :=
  charsContain pat.data s.data

theorem invokeLoop_all429 {α : Type} (errs : Nat → JsError) (opts : RetryOpts)
    (h429 : ∀ k, (errs k).name = TOO_MANY_REQUEST_ERROR ∧
      (errs k).code = some TOO_MANY_REQUEST_ERROR_CODE)
    (hdis : opts.disable429Retry = false) :
    ∀ fuel attempt, attempt + fuel = opts.max429RetryCount →
      invokeLoop (α := α) (fun k => Except.error (errs k)) opts attempt fuel
        = (Except.error (errs opts.max429RetryCount), opts.max429RetryCount + 1) := by
  intro fuel
  induction fuel with
  | zero =>
    intro attempt h
    have ha : attempt = opts.max429RetryCount := by omega
    subst ha
    simp [invokeLoop]
  | succ f ih =>
    intro attempt h
    have hlt : attempt < opts.max429RetryCount := by omega
    simp [invokeLoop, shouldRetry, hdis, (h429 attempt).1, (h429 attempt).2, hlt]
    exact ih (attempt + 1) (by omega)

/-- C1 amended: when every attempt fails with a 429-kind error and retry is not
disabled, the engine makes exactly max429RetryCount + 1 invocations and then
rejects with the rate-limit error of the final attempt itself, unchanged; no
distinct retry-exhaustion error is produced. -/
theorem retryInvoke_exhaustion_original_error {α : Type} (errs : Nat → JsError)
    (opts : RetryOpts)
    (h429 : ∀ k, (errs k).name = TOO_MANY_REQUEST_ERROR ∧
      (errs k).code = some TOO_MANY_REQUEST_ERROR_CODE)
    (hdis : opts.disable429Retry = false) :
    retryInvoke (α := α) (fun k => Except.error (errs k)) opts
      = (Except.error (errs opts.max429RetryCount), opts.max429RetryCount + 1) :=
  invokeLoop_all429 errs opts h429 hdis opts.max429RetryCount 0 (by omega)

/-- Witness for the amended C1 theorem at max429RetryCount = 1: two attempts in
total, rejection with the original rate-limit error. -/
theorem retryInvoke_exhaustion_original_error_witness :
    retryInvoke (α := Unit) (fun _ => Except.error rateLimit429)
      { max429RetryCount := 1, disable429Retry := false }
      = (Except.error rateLimit429, 2) :=
  retryInvoke_exhaustion_original_error (fun _ => rateLimit429)
    { max429RetryCount := 1, disable429Retry := false }
    (fun _ => ⟨rfl, rfl⟩) rfl

/-- C1 counterexample: with maxAttempts = 1 and a 429 response with retry-after 1
on every attempt, exactly 2 attempts are made but the engine rejects with the very
original rate-limit error (message "Too many requests"); that message does not
contain the phrase 2 attempts, so no error citing the attempt count is thrown and
the rejected error is not distinct from the rate-limit error. -/
theorem retry_exhaustion_no_distinct_error :
    retry (α := Unit) (fun _ => Except.error rateLimit429)
      (some { max429RetryCount := some 1, disable429Retry := none })
      = (Except.error rateLimit429, 2)
    ∧ strContains rateLimit429.message "2 attempts" = false
    ∧ strContains rateLimit429.message "attempts" = false
    ∧ rateLimit429.name = "TooManyRequestsError" ∧ rateLimit429.code = some 429 := by
  refine ⟨rfl, by decide, by decide, rfl, rfl⟩

/-- C7: on a failed attempt, the engine re-invokes the operation if and only if
the error is the rate-limit kind (name TooManyRequestsError and code 429) and
retry is not disabled and the attempt count is below the per-call maximum; in
every other case it rejects with the very same error value, unwrapped. -/
theorem retry_grant_iff {α : Type} (outcome : AttemptOracle α) (opts : RetryOpts)
    (attempt fuel : Nat) (e : JsError) (hfail : outcome attempt = Except.error e) :
    (shouldRetry attempt e opts = true ↔
      (e.name = TOO_MANY_REQUEST_ERROR ∧ e.code = some TOO_MANY_REQUEST_ERROR_CODE ∧
        opts.disable429Retry = false ∧ attempt < opts.max429RetryCount))
    ∧ (shouldRetry attempt e opts = false →
        invokeLoop outcome opts attempt fuel = (Except.error e, attempt + 1))
    ∧ (shouldRetry attempt e opts = true →
        invokeLoop outcome opts attempt (fuel + 1)
          = invokeLoop outcome opts (attempt + 1) fuel) := by
  refine ⟨?_, ?_, ?_⟩
  · constructor
    · intro h
      by_cases hd : opts.disable429Retry = true
      · simp [shouldRetry, hd] at h
      · have hd0 : opts.disable429Retry = false := by simpa using hd
        by_cases hk : e.code = some TOO_MANY_REQUEST_ERROR_CODE ∧ e.name = TOO_MANY_REQUEST_ERROR
        · simp [shouldRetry, hd0, hk] at h
          exact ⟨hk.2, hk.1, hd0, h⟩
        · simp [shouldRetry, hd0, hk] at h
    · rintro ⟨hn, hc, hd, hlt⟩
      simp [shouldRetry, hd, hn, hc, hlt]
  · intro h
    cases fuel <;> simp [invokeLoop, hfail, h]
  · intro h
    simp [invokeLoop, hfail, h]

/-- Witness for the C7 theorem at a concrete non-retryable input: a plain error is
rejected unchanged after one attempt. -/
theorem retry_grant_iff_witness :
    invokeLoop (α := Unit)
      (fun _ => Except.error { name := "Error", code := none, message := "boom", retryAfter := none })
      { max429RetryCount := 4, disable429Retry := false } 0 4
      = (Except.error { name := "Error", code := none, message := "boom", retryAfter := none }, 1) := by
  have h := retry_grant_iff (α := Unit)
    (fun _ => Except.error { name := "Error", code := none, message := "boom", retryAfter := none })
    { max429RetryCount := 4, disable429Retry := false } 0 4
    { name := "Error", code := none, message := "boom", retryAfter := none } rfl
  exact h.2.1 (by decide)

/-- Results of the two JavaScript primitives applied to the raw retry-after header
string by src/lib/error.js: parseIntResult is parseInt(s, 10) (none when NaN, the
isStringifiedNumber helper), dateParseResult is the epoch-millisecond value of the
Date constructed from s (none when invalid, the isStringifiedDate helper).  The
primitives are platform collaborators; the embedding takes their results as input. -/
structure RetryAfterHeader where
  parseIntResult : Option Int
  dateParseResult : Option Int
  deriving DecidableEq, Repr

/-- Math.round(a / 1000) for an integer number a of milliseconds: JavaScript rounds
half toward positive infinity, so the result is the floor of a / 1000 + 1 / 2,
which for integers is the floor division of 2 * a + 1000 by 2000 (Int.ediv is floor
division for a positive divisor). -/
def jsRoundDivMs (a : Int) : Int :=
  (2 * a + 1000) / 2000

/-- The TooManyRequestsError constructor of src/lib/error.js (lines 52-76): name
TooManyRequestsError and code 429 always; when the header argument is a string,
retryAfter is first its integer parse, otherwise the rounded seconds until its date
parse (defaulting to 1 when not positive), otherwise left unset.  now is Date.now()
in epoch milliseconds. -/
def TooManyRequestsError (message : String) (retryAfterHeader : Option RetryAfterHeader)
    (now : Int) : JsError :=
  let base : JsError :=
    { name := "TooManyRequestsError", code := some 429, message := message, retryAfter := none }
  match retryAfterHeader with
  | none => base
  | some h =>
    match h.parseIntResult with
    | some n => { base with retryAfter := some n }
    | none =>
      match h.dateParseResult with
      | some t =>
        let timeTillRetrySeconds := jsRoundDivMs (t - now)
        { base with retryAfter := some (if timeTillRetrySeconds > 0 then timeTillRetrySeconds else 1) }
      | none => base

theorem jsRoundDivMs_nonpos {a : Int} (h : a ≤ 0) : jsRoundDivMs a ≤ 0 := by
  unfold jsRoundDivMs
  omega

/-- C8: for every raw retry-after header string, the constructed error carries name
TooManyRequestsError and numeric code 429; its wait duration is the integer parse of
the header when that succeeds, otherwise the rounded second count until the parsed
date clamped up to 1 when not positive, otherwise left unset; in particular a date
not later than now yields exactly 1 second. -/
theorem TooManyRequestsError_spec (message : String) (h : RetryAfterHeader) (now : Int) :
    (TooManyRequestsError message (some h) now).name = "TooManyRequestsError"
    ∧ (TooManyRequestsError message (some h) now).code = some 429
    ∧ (TooManyRequestsError message (some h) now).retryAfter =
        (match h.parseIntResult, h.dateParseResult with
         | some n, _ => some n
         | none, some t =>
           some (if jsRoundDivMs (t - now) ≤ 0 then 1 else jsRoundDivMs (t - now))
         | none, none => none)
    ∧ (∀ t : Int, h.parseIntResult = none → h.dateParseResult = some t → t ≤ now →
        (TooManyRequestsError message (some h) now).retryAfter = some 1) := by
  obtain ⟨pi, dp⟩ := h
  refine ⟨?_, ?_, ?_, ?_⟩
  · cases pi <;> cases dp <;> rfl
  · cases pi <;> cases dp <;> rfl
  · cases pi with
    | none =>
      cases dp with
      | none => rfl
      | some t =>
        simp only [TooManyRequestsError]
        rcases le_or_lt (jsRoundDivMs (t - now)) 0 with hle | hgt
        · simp [not_lt.mpr hle, hle]
        · simp [hgt, not_le.mpr hgt]
    | some n => cases dp <;> rfl
  · intro t hpi hdp hle
    cases hpi
    cases hdp
    have hr : jsRoundDivMs (t - now) ≤ 0 := jsRoundDivMs_nonpos (by omega)
    simp [TooManyRequestsError, not_lt.mpr hr]

/-- Witness for the C8 theorem: a header whose integer parse fails and whose date
parse gives an epoch instant in the past yields a wait of exactly 1 second, with
name and code fixed. -/
theorem TooManyRequestsError_spec_witness :
    (TooManyRequestsError "m" (some ⟨none, some 0⟩) 1000000).retryAfter = some 1
    ∧ (TooManyRequestsError "m" (some ⟨none, some 0⟩) 1000000).name = "TooManyRequestsError"
    ∧ (TooManyRequestsError "m" (some ⟨none, some 0⟩) 1000000).code = some 429 :=
  ⟨(TooManyRequestsError_spec "m" ⟨none, some 0⟩ 1000000).2.2.2 0 rfl rfl (by decide),
   (TooManyRequestsError_spec "m" ⟨none, some 0⟩ 1000000).1,
   (TooManyRequestsError_spec "m" ⟨none, some 0⟩ 1000000).2.1⟩

/-- Signals the client emits on itself (client.js emit calls): the drained signal
and the error-channel signal carrying the internal-consistency fault for a negative
pending count. -/
inductive ClientSignal
  | drained
  | internalError (pendingValue : Int)
  deriving DecidableEq, Repr

/-- completePendingRendition of src/lib/client.js (lines 30-40): decrement the
pending-rendition counter; when it goes negative emit an internal error on the
error channel (a normal return, not a throw), when it reaches exactly zero emit
the drained signal. -/
def completePendingRendition (pending : Int) : Int × List ClientSignal :=
  let p := pending - 1
  if p < 0 then (p, [ClientSignal.internalError p])
  else if p = 0 then (p, [ClientSignal.drained])
  else (p, [])

/-- The correlation metadata carried by an incoming journal event under
event.rendition.userData.assetComputeClient: index and length, each present only
when the remote side echoed a number back. -/
structure EventSubdata where
  index : Option Nat
  length : Option Nat
  deriving DecidableEq, Repr

/-- An incoming journal event (rendition_created or rendition_failed): its
requestId, the client identity under event.userData.assetComputeClient.id, the
per-rendition correlation metadata under event.rendition.userData, and an opaque
payload standing for the rest of the event body. -/
structure RenditionEvent where
  requestId : String
  clientId : Option String
  subdata : Option EventSubdata
  payload : String
  deriving DecidableEq, Repr

/-- getAssetComputeClientId of src/lib/client.js (lines 24-28). -/
def getAssetComputeClientId (event : RenditionEvent) : Option String :=
  event.clientId

/-- The event-forwarding handlers installed in process (src/lib/client.js lines
300-311): an incoming journal event touches the counter only when its client
identity matches this client. -/
def deliverEvent (selfId : String) (pending : Int) (event : RenditionEvent) :
    Int × List ClientSignal :=
  if getAssetComputeClientId event = some selfId then completePendingRendition pending
  else (pending, [])

/-- One observable operation on the client counter: a successful process call that
submitted the given number of renditions, or the delivery of one journal event. -/
inductive ClientOp
  | processOk (renditionCount : Nat)
  | journalEvent (event : RenditionEvent)
  deriving DecidableEq, Repr

/-- Effect of one operation on the pending counter (process line 348 for the
increment, the forwarding handlers for event delivery). -/
def stepOp (selfId : String) (pending : Int) : ClientOp → Int × List ClientSignal
  | .processOk n => (pending + n, [])
  | .journalEvent e => deliverEvent selfId pending e

/-- Run a sequence of operations from a pending count, collecting the signals each
operation emitted. -/
def runOps (selfId : String) : Int → List ClientOp → Int × List (List ClientSignal)
  | pending, [] => (pending, [])
  | pending, op :: rest =>
    let s := stepOp selfId pending op
    let r := runOps selfId s.1 rest
    (r.1, s.2 :: r.2)

theorem runOps_append (selfId : String) (l1 l2 : List ClientOp) :
    ∀ p : Int, runOps selfId p (l1 ++ l2)
      = ((runOps selfId (runOps selfId p l1).1 l2).1,
         (runOps selfId p l1).2 ++ (runOps selfId (runOps selfId p l1).1 l2).2) := by
  induction l1 with
  | nil => intro p; simp [runOps]
  | cons op rest ih => intro p; simp [runOps, ih]

theorem runOps_processPhase (selfId : String) (rs : List Nat) :
    ∀ p : Int, runOps selfId p (rs.map ClientOp.processOk)
      = (p + rs.sum, rs.map fun _ => []) := by
  induction rs with
  | nil => intro p; simp [runOps]
  | cons n rest ih =>
    intro p
    simp only [List.map_cons, runOps, stepOp, ih, List.sum_cons, Prod.mk.injEq]
    refine ⟨by push_cast; ring, by simp⟩

theorem runOps_eventPhase (selfId : String) (es : List RenditionEvent) :
    ∀ p : Int, (∀ e ∈ es, e.clientId = some selfId) → (es.length : Int) ≤ p →
      runOps selfId p (es.map ClientOp.journalEvent)
        = (p - es.length,
           (List.range es.length).map
             (fun (j : Nat) => if ((j : Int) + 1 = p) then [ClientSignal.drained] else [])) := by
  induction es with
  | nil => intro p _ _; simp [runOps]
  | cons e rest ih =>
    intro p hmatch hle
    have hc : e.clientId = some selfId := hmatch e (by simp)
    have hlen : ((rest.length : Int)) + 1 ≤ p := by
      simp only [List.length_cons] at hle
      push_cast at hle
      omega
    have hnneg : ¬ (p - 1 < 0) := by omega
    have hstep : completePendingRendition p
        = (p - 1, if p - 1 = 0 then [ClientSignal.drained] else []) := by
      simp only [completePendingRendition, if_neg hnneg]
      split_ifs <;> rfl
    have htail := ih (p - 1) (fun x hx => hmatch x (by simp [hx])) (by omega)
    simp only [List.map_cons, runOps, stepOp, deliverEvent, getAssetComputeClientId, hc,
      eq_self_iff_true, if_true, hstep, htail, List.length_cons, Prod.mk.injEq]
    refine ⟨by push_cast; omega, ?_⟩
    rw [List.range_succ_eq_map, List.map_cons, List.map_map]
    congr 1
    · rcases eq_or_ne p 1 with h1 | h1
      · simp [h1]
      · rw [if_neg (by omega), if_neg (by omega)]
    · exact List.map_congr_left (fun j _ => if_congr (by push_cast; omega) rfl rfl)

/-- The stamped per-rendition correlation metadata written by process: the position
of the rendition in the submitted array and the array length. -/
structure ACStampIdx where
  index : Nat
  length : Nat
  deriving DecidableEq, Repr

/-- The userData object nested in a rendition: its other fields, and the
client-scoped assetComputeClient key. -/
structure RenditionUserData where
  fields : List (String × String)
  assetComputeClient : Option ACStampIdx
  deriving DecidableEq, Repr

/-- A rendition descriptor: its own fields (name, fmt, target, ...) and the
optional nested userData object. -/
structure Rendition where
  fields : List (String × String)
  userData : Option RenditionUserData
  deriving DecidableEq, Repr

/-- The batch-level userData object: its other fields and the client-scoped
assetComputeClient key carrying the client identity. -/
structure BatchUserData where
  fields : List (String × String)
  assetComputeClient : Option String
  deriving DecidableEq, Repr

/-- The renditions.map of process (src/lib/client.js lines 326-337), value level:
each rendition is copied with its userData replaced by a copy of the original
userData (an absent userData spreads to an empty object) whose assetComputeClient
key is overridden with the index and length stamp. -/
def stampRenditions (renditions : List Rendition) : List Rendition :=
  renditions.mapIdx (fun index rendition =>
    { fields := rendition.fields,
      userData := some
        { fields := match rendition.userData with
            | some ud => ud.fields
            | none => [],
          assetComputeClient := some ⟨index, renditions.length⟩ } })

/-- The batch userData stamp of process (src/lib/client.js lines 340-345): copy the
caller userData (an absent one spreads to an empty object) and override the
assetComputeClient key with the client identity. -/
def stampBatchUserData (userData : Option BatchUserData) (selfId : String) : BatchUserData :=
  { fields := match userData with
      | some u => u.fields
      | none => [],
    assetComputeClient := some selfId }

/-- Response of the process transport endpoint. -/
structure ProcessResponse where
  requestId : String
  deriving DecidableEq, Repr

/-- Record of one invocation of the transport process endpoint: the stamped
renditions and stamped userData it was given. -/
structure TransportCall where
  renditions : List Rendition
  userData : BatchUserData
  deriving DecidableEq, Repr

/-- The lifecycle error thrown by process before register (src/lib/client.js line
285): a plain Error, so no code and no retryAfter. -/
def lifecycleError : JsError :=
  { name := "Error", code := none,
    message := "Must call register before calling /process", retryAfter := none }

/-- The process method of src/lib/client.js (lines 282-350): throw the lifecycle
error before doing anything else when the client is not registered; otherwise stamp
the renditions and the userData, invoke the transport once with the stamped values
(transportResult stands for its outcome), and on success add the stamped array
length to the pending counter.  The second component records every transport
invocation made. -/
def processCall (registered : Bool) (pendingRenditions : Int) (selfId : String)
    (renditions : List Rendition) (userData : Option BatchUserData)
    (transportResult : Except JsError ProcessResponse) :
    Except JsError (ProcessResponse × Int) × List TransportCall :=
  if registered then
    let stamped := stampRenditions renditions
    let stampedUserData := stampBatchUserData userData selfId
    match transportResult with
    | .error e => (.error e, [⟨stamped, stampedUserData⟩])
    | .ok resp => (.ok (resp, pendingRenditions + stamped.length), [⟨stamped, stampedUserData⟩])
  else (.error lifecycleError, [])

/-- C4: on a client whose registered flag is false, process rejects with the
must-register-first lifecycle error and the transport process endpoint is never
invoked, whatever the arguments and whatever the transport would have answered. -/
theorem process_requires_register (pending : Int) (selfId : String)
    (renditions : List Rendition) (userData : Option BatchUserData)
    (transportResult : Except JsError ProcessResponse) :
    processCall false pending selfId renditions userData transportResult
      = (Except.error lifecycleError, []) :=
  rfl

/-- C5: a successful process call with a renditions array of length n adds exactly
n to the pending counter; and running K successful process calls with r1..rK
renditions followed by E matching journal events (E at most the sum of the ri)
leaves the counter at sum ri minus E, with the process phase emitting nothing, each
event decrementing by exactly one, and the drained signal emitted at exactly the
event delivery that brings the counter to zero. -/
theorem pending_counter_invariant (selfId : String) (rs : List Nat)
    (es : List RenditionEvent)
    (hmatch : ∀ e ∈ es, e.clientId = some selfId)
    (hle : (es.length : Int) ≤ (rs.sum : Int)) :
    (∀ (resp : ProcessResponse) (p : Int) (rends : List Rendition)
        (ud : Option BatchUserData),
      (processCall true p selfId rends ud (.ok resp)).1 = .ok (resp, p + rends.length))
    ∧ runOps selfId 0 (rs.map ClientOp.processOk ++ es.map ClientOp.journalEvent)
        = ((rs.sum : Int) - es.length,
           (rs.map fun _ => []) ++ (List.range es.length).map
             (fun (j : Nat) =>
               if ((j : Int) + 1 = (rs.sum : Int)) then [ClientSignal.drained] else [])) := by
  constructor
  · intro resp p rends ud
    simp [processCall, stampRenditions]
  · rw [runOps_append, runOps_processPhase, runOps_eventPhase selfId es _ hmatch (by simpa using hle)]
    simp [runOps_processPhase]

/-- Witness for the C5 theorem: two process calls of sizes 2 and 1 followed by
three matching events leave the counter at 0, the drained signal firing exactly on
the third event. -/
theorem pending_counter_invariant_witness :
    runOps "c" 0
        ([2, 1].map ClientOp.processOk ++
          (List.replicate 3 ⟨"r", some "c", none, "e"⟩).map ClientOp.journalEvent)
      = (0, [[], [], [], [], [ClientSignal.drained]]) := by
  have h := (pending_counter_invariant "c" [2, 1]
    (List.replicate 3 ⟨"r", some "c", none, "e"⟩)
    (fun e he => by
      have : e = ⟨"r", some "c", none, "e"⟩ := List.eq_of_mem_replicate he
      simp [this])
    (by decide)).2
  rw [h]
  decide

/-- The synchronous entry behavior of wait (src/lib/client.js lines 233-262): a
negative pending count throws the internal-consistency error before anything is
set up; a positive count registers the drained listener and the timeout timer; a
zero count returns at once. -/
inductive WaitEntry
  | throwNegative (pending : Int)
  | registerAndAwait
  | resolveImmediately
  deriving DecidableEq, Repr

/-- Decision taken by wait on entry, from the pending counter alone. -/
def waitEntry (pending : Int) : WaitEntry :=
  if pending < 0 then .throwNegative pending
  else if pending > 0 then .registerAndAwait
  else .resolveImmediately

/-- The two function values that appear in the listener bookkeeping of wait: the
listener closure it registers on the drained signal (line 259), and the promise
resolve function that clearEvents passes to off (line 256). -/
inductive DrainedCallback
  | listenerFn
  | resolveFn
  deriving DecidableEq, Repr

/-- Listeners wait adds to the drained signal on entry: exactly the listener
closure, and only on the registerAndAwait path. -/
def waitRegistrations (pending : Int) : List DrainedCallback :=
  match waitEntry pending with
  | .registerAndAwait => [.listenerFn]
  | _ => []

/-- Whether wait starts the timeout timer (only on the registerAndAwait path). -/
def waitStartsTimer (pending : Int) : Bool :=
  match waitEntry pending with
  | .registerAndAwait => true
  | _ => false

/-- clearEvents of wait (src/lib/client.js lines 254-257): clear the timer and call
off with the resolve function.  Node removes the first registration equal to the
function passed; resolve was never registered, so this removes nothing. -/
def waitClearEvents (registry : List DrainedCallback) : List DrainedCallback :=
  registry.erase .resolveFn

/-- Drained-listener registry after a wait call settles: both settlement paths (the
drained signal running the listener, and the timer firing) run clearEvents on the
registry that wait extended on entry. -/
def waitAfterSettle (pending : Int) (registry : List DrainedCallback) : List DrainedCallback :=
  waitClearEvents (registry ++ waitRegistrations pending)

/-- C3 (code bug): with one pending rendition and an initially empty registry, the
listener wait registered on the drained signal is still registered after the call
settles, because clearEvents removes the resolve function (never registered)
instead of the listener closure; the registry is not empty after settlement, in
contradiction with the guaranteed-cleanup property. -/
theorem wait_listener_leak :
    waitAfterSettle 1 [] = [DrainedCallback.listenerFn]
    ∧ waitAfterSettle 1 [] ≠ [] := by
  decide

/-- C10: when the pending counter is negative on entry, wait throws the
internal-consistency error synchronously, registering no listener and starting no
timer; by contrast the event-delivery path returns normally on underflow and
surfaces the fault as a signal on the error channel. -/
theorem wait_negative_guard (p : Int) (h : p < 0) :
    waitEntry p = .throwNegative p
    ∧ waitRegistrations p = []
    ∧ waitStartsTimer p = false
    ∧ completePendingRendition p = (p - 1, [ClientSignal.internalError (p - 1)]) := by
  refine ⟨by simp [waitEntry, h], ?_, ?_, ?_⟩
  · simp [waitRegistrations, waitEntry, h]
  · simp [waitStartsTimer, waitEntry, h]
  · simp [completePendingRendition]
    omega

/-- Witness for the C10 theorem at pending = -1. -/
theorem wait_negative_guard_witness :
    waitEntry (-1) = .throwNegative (-1)
    ∧ waitRegistrations (-1) = []
    ∧ waitStartsTimer (-1) = false
    ∧ completePendingRendition (-1) = (-2, [ClientSignal.internalError (-2)]) :=
  wait_negative_guard (-1) (by decide)

/-- The per-call correlation context of waitActivation (the context object of
src/lib/client.js line 362): pendingEvents and events are undefined until the first
matching event initialises them. -/
structure WaitContext where
  pendingEvents : Option Int
  events : Option (List (Option RenditionEvent))
  deriving DecidableEq, Repr

/-- The protocol-violation errors thrown by completeClientEvent (src/lib/client.js
lines 54-62 and 73), with the stringified event bodies of the messages abstracted
into the constructor. -/
inductive ProtocolError
  | missingUserData (requestId : String)
  | missingIndex (requestId : String)
  | missingLength (requestId : String)
  | duplicateEvent (requestId : String)
  deriving DecidableEq, Repr

/-- JavaScript truthiness of context.pendingEvents (line 65): undefined and 0 are
falsy. -/
def pendingFalsy (context : WaitContext) : Bool :=
  match context.pendingEvents with
  | none => true
  | some n => decide (n = 0)

/-- JavaScript array element assignment events[i] = v: an in-range write replaces
the slot, a write past the end extends the array with holes. -/
def jsArraySet (l : List (Option RenditionEvent)) (i : Nat) (v : RenditionEvent) :
    List (Option RenditionEvent) :=
  if i < l.length then l.set i (some v)
  else l ++ List.replicate (i - l.length) none ++ [some v]

/-- completeClientEvent of src/lib/client.js (lines 42-78): ignore events for other
requests; fail on a missing correlation chain or missing index or length numbers;
on the first matching event initialise the countdown and the slot array from the
stamped length; fill the empty slot at the stamped index and decrement the
countdown, or fail on a duplicate fill.  Stamped index and length values are
modelled as natural numbers, which covers every event the process method of this
client stamps. -/
def completeClientEvent (requestId : String) (event : RenditionEvent)
    (context : WaitContext) : Except ProtocolError WaitContext :=
  if event.requestId ≠ requestId then .ok context
  else
    match event.subdata with
    | none => .error (.missingUserData requestId)
    | some userData =>
      match userData.index with
      | none => .error (.missingIndex requestId)
      | some index =>
        match userData.length with
        | none => .error (.missingLength requestId)
        | some length =>
          let context :=
            if pendingFalsy context then
              { pendingEvents := some (length : Int),
                events := some (List.replicate length none) }
            else context
          let events := context.events.getD []
          match events[index]? with
          | some (some _) => .error (.duplicateEvent requestId)
          | _ =>
            .ok { pendingEvents := some (context.pendingEvents.getD 0 - 1),
                  events := some (jsArraySet events index event) }

/-- Outcome of the waitActivation listener run: the promise is still pending with a
context, resolved with the collected events, or rejected with a protocol error. -/
inductive WaitOutcome
  | pending (context : WaitContext)
  | resolved (events : List (Option RenditionEvent))
  | rejected (error : ProtocolError)
  deriving DecidableEq, Repr

/-- The listener of waitActivation (src/lib/client.js lines 373-384): feed the
event through completeClientEvent; reject on a thrown protocol error; resolve with
the event array once the array exists and the countdown reaches zero. -/
def waitStep (requestId : String) (context : WaitContext) (event : RenditionEvent) :
    WaitOutcome :=
  match completeClientEvent requestId event context with
  | .error e => .rejected e
  | .ok ctx =>
    match ctx.events with
    | some evs => if ctx.pendingEvents = some 0 then .resolved evs else .pending ctx
    | none => .pending ctx

/-- Deliver a sequence of events to an outstanding waitActivation call.  Once the
promise settles, clearEvents removes the listeners synchronously, so later events
are not observed. -/
def waitRun (requestId : String) : WaitContext → List RenditionEvent → WaitOutcome
  | context, [] => .pending context
  | context, e :: rest =>
    match waitStep requestId context e with
    | .pending ctx => waitRun requestId ctx rest
    | .resolved evs => .resolved evs
    | .rejected err => .rejected err

/-- The context at the start of a waitActivation call. -/
def emptyWaitContext : WaitContext :=
  { pendingEvents := none, events := none }

/-- The event the remote side sends back for the rendition stamped at a given index
by a process call with the given batch length: the correlation metadata is echoed
unchanged, the payload stands for the rest of the event body. -/
def mkStampedEvent (requestId : String) (clientId : Option String) (length : Nat)
    (payload : Nat → String) (i : Nat) : RenditionEvent :=
  { requestId := requestId, clientId := clientId,
    subdata := some { index := some i, length := some length }, payload := payload i }

theorem completeClientEvent_fill (requestId : String) (e : RenditionEvent)
    (i n : Nat) (k : Int) (ctx : WaitContext) (l : List (Option RenditionEvent))
    (hreq : e.requestId = requestId)
    (hsub : e.subdata = some { index := some i, length := some n })
    (hp : ctx.pendingEvents = some k) (he : ctx.events = some l)
    (hk : k ≠ 0) (hlt : i < l.length) (hslot : l[i]? = some none) :
    completeClientEvent requestId e ctx
      = .ok { pendingEvents := some (k - 1), events := some (l.set i (some e)) } := by
  simp [completeClientEvent, hreq, hsub, pendingFalsy, hp, he, hk, hslot, jsArraySet, hlt]

theorem waitRun_inv (requestId : String) (n : Nat) (ev : Nat → RenditionEvent)
    (hreq : ∀ i, (ev i).requestId = requestId)
    (hsub : ∀ i, (ev i).subdata = some { index := some i, length := some n }) :
    ∀ (s : List Nat) (ctx : WaitContext) (l : List (Option RenditionEvent)),
      s ≠ [] → s.Nodup → (∀ i ∈ s, i < n) →
      ctx.pendingEvents = some (s.length : Int) →
      ctx.events = some l → l.length = n →
      (∀ i, i < n → l[i]? = some (if i ∈ s then none else some (ev i))) →
      waitRun requestId ctx (s.map ev)
        = .resolved ((List.range n).map (fun i => some (ev i))) := by
  intro s
  induction s with
  | nil => intro _ _ h _ _ _ _ _; exact absurd rfl h
  | cons j s1 ih =>
    intro ctx l _ hnd hbound hpend hev hlen hslots
    have hj : j < n := hbound j (by simp)
    have hk0 : (((j :: s1).length : Nat) : Int) ≠ 0 := by
      simp only [List.length_cons]
      push_cast
      omega
    have hfill := completeClientEvent_fill requestId (ev j) j n
      (((j :: s1).length : Nat) : Int) ctx l (hreq j) (hsub j) hpend hev hk0
      (by omega) (by simpa using hslots j hj)
    have hslots1 : ∀ i, i < n →
        (l.set j (some (ev j)))[i]? = some (if i ∈ s1 then none else some (ev i)) := by
      intro i hi
      rcases eq_or_ne j i with rfl | hne
      · rw [List.getElem?_set_self (by omega)]
        have : ¬ j ∈ s1 := (List.nodup_cons.mp hnd).1
        simp [this]
      · rw [List.getElem?_set_ne hne]
        have := hslots i hi
        rcases Decidable.em (i ∈ s1) with hm | hm
        · simpa [hm] using this
        · have : i ∈ (j :: s1) ↔ i ∈ s1 := by simp [hne.symm, List.mem_cons]
          simp_all
    cases s1 with
    | nil =>
      simp only [List.map_cons, List.map_nil, waitRun, waitStep, hfill]
      have hres : ((([j].length : Nat) : Int) - 1) = 0 := by simp
      rw [hres, if_pos rfl]
      refine congrArg WaitOutcome.resolved (List.ext_getElem?_iff.mpr fun i => ?_)
      rcases lt_or_ge i n with hi | hi
      · rcases eq_or_ne j i with rfl | hne
        · rw [List.getElem?_set_self (by omega)]
          simp [List.getElem?_map, List.getElem?_range, hi]
        · rw [List.getElem?_set_ne hne]
          have := hslots i hi
          have hmem : ¬ i ∈ [j] := by simp [hne.symm]
          simp only [hmem, if_false] at this
          simp [this, List.getElem?_map, List.getElem?_range, hi]
      · rw [List.getElem?_eq_none (by simp [hlen, hi]),
          List.getElem?_eq_none (by simp [hi])]
    | cons j2 s2 =>
      simp only [List.map_cons, waitRun, waitStep, hfill]
      have hne0 : ¬ ((((j :: j2 :: s2).length : Nat) : Int) - 1 = (0 : Int)) := by
        simp only [List.length_cons]
        push_cast
        omega
      rw [if_neg (by simpa using hne0)]
      have hpend1 : (((j :: j2 :: s2).length : Nat) : Int) - 1
          = (((j2 :: s2).length : Nat) : Int) := by
        simp only [List.length_cons]
        push_cast
        ring
      rw [hpend1]
      exact ih ⟨some (((j2 :: s2).length : Nat) : Int), some (l.set j (some (ev j)))⟩
        (l.set j (some (ev j)))
        (by simp) (List.nodup_cons.mp hnd).2
        (fun i hi => hbound i (by simp [hi]))
        rfl rfl (by simp [hlen]) hslots1

/-- C2: for a batch of n renditions (n at least 1), if waitActivation receives one
well-formed event per stamped index, in any arrival order, it resolves with an
array of exactly length n whose element at position i is the event stamped with
index i. -/
theorem waitActivation_order_independent (n : Nat) (hn : 1 ≤ n) (requestId : String)
    (clientId : Option String) (payload : Nat → String) (order : List Nat)
    (hnd : order.Nodup) (hmem : ∀ i, i ∈ order ↔ i < n) :
    waitRun requestId emptyWaitContext
        (order.map (mkStampedEvent requestId clientId n payload))
      = .resolved ((List.range n).map
          (fun i => some (mkStampedEvent requestId clientId n payload i)))
    ∧ ((List.range n).map
        (fun i => some (mkStampedEvent requestId clientId n payload i))).length = n := by
  have hlen : order.length = n := by
    have h1 : order.toFinset = Finset.range n := by
      ext x
      simp [List.mem_toFinset, Finset.mem_range, hmem]
    have h2 := List.toFinset_card_of_nodup hnd
    rw [h1, Finset.card_range] at h2
    omega
  refine ⟨?_, by simp⟩
  cases horder : order with
  | nil => rw [horder] at hlen; simp at hlen; omega
  | cons j rest =>
    subst horder
    have hj : j < n := (hmem j).mp (by simp)
    have hn0 : ¬ ((n : Int) = 0) := by
      omega
    have hinit : completeClientEvent requestId
          (mkStampedEvent requestId clientId n payload j) emptyWaitContext
        = completeClientEvent requestId
          (mkStampedEvent requestId clientId n payload j)
          { pendingEvents := some (n : Int), events := some (List.replicate n none) } := by
      simp [completeClientEvent, mkStampedEvent, pendingFalsy, emptyWaitContext, hn0]
    have hrun : waitRun requestId emptyWaitContext
          ((j :: rest).map (mkStampedEvent requestId clientId n payload))
        = waitRun requestId
          { pendingEvents := some (n : Int), events := some (List.replicate n none) }
          ((j :: rest).map (mkStampedEvent requestId clientId n payload)) := by
      simp only [List.map_cons, waitRun, waitStep, hinit]
    rw [hrun]
    have hlenn : ((j :: rest).length : Int) = (n : Int) := by rw [hlen]
    exact waitRun_inv requestId n (mkStampedEvent requestId clientId n payload)
      (fun _ => rfl) (fun _ => rfl) (j :: rest)
      { pendingEvents := some (n : Int), events := some (List.replicate n none) }
      (List.replicate n none)
      (by simp) hnd (fun i hi => (hmem i).mp hi)
      (by rw [← hlenn]) rfl (by simp)
      (fun i hi => by simp [List.getElem?_replicate, hi, (hmem i).mpr hi])

/-- Witness for the C2 theorem: two renditions whose events arrive in reverse
order still resolve to the index-aligned array. -/
theorem waitActivation_order_independent_witness :
    waitRun "req" emptyWaitContext
        ([1, 0].map (mkStampedEvent "req" (some "c") 2 (fun _ => "p")))
      = .resolved ((List.range 2).map
          (fun i => some (mkStampedEvent "req" (some "c") 2 (fun _ => "p") i)))
    ∧ ((List.range 2).map
        (fun i => some (mkStampedEvent "req" (some "c") 2 (fun _ => "p") i))).length = 2 :=
  waitActivation_order_independent 2 (by decide) "req" (some "c") (fun _ => "p")
    [1, 0] (by decide) (fun i => by simp [List.mem_cons]; omega)

/-- C6: a second event carrying the same requestId and stamped index as one that
already filled its slot makes completeClientEvent throw the duplicate-event
protocol error, so the outstanding waitActivation call rejects; no ok context is
produced, hence the previously filled slot is never overwritten. -/
theorem duplicate_event_rejected (requestId : String) (ctx : WaitContext)
    (e prev : RenditionEvent) (i n : Nat) (k : Int)
    (l : List (Option RenditionEvent))
    (hreq : e.requestId = requestId)
    (hsub : e.subdata = some { index := some i, length := some n })
    (hp : ctx.pendingEvents = some k) (hk : k ≠ 0)
    (he : ctx.events = some l)
    (hslot : l[i]? = some (some prev)) :
    completeClientEvent requestId e ctx = .error (.duplicateEvent requestId)
    ∧ waitStep requestId ctx e = .rejected (.duplicateEvent requestId) := by
  have h1 : completeClientEvent requestId e ctx = .error (.duplicateEvent requestId) := by
    simp [completeClientEvent, hreq, hsub, pendingFalsy, hp, hk, he, hslot]
  exact ⟨h1, by simp [waitStep, h1]⟩

/-- Witness for the C6 theorem: with index 0 already filled, a second event for
index 0 of the same request rejects with the duplicate-event error. -/
theorem duplicate_event_rejected_witness :
    completeClientEvent "req" (mkStampedEvent "req" none 2 (fun _ => "q") 0)
        { pendingEvents := some 1,
          events := some [some (mkStampedEvent "req" none 2 (fun _ => "p") 0), none] }
      = .error (.duplicateEvent "req")
    ∧ waitStep "req"
        { pendingEvents := some 1,
          events := some [some (mkStampedEvent "req" none 2 (fun _ => "p") 0), none] }
        (mkStampedEvent "req" none 2 (fun _ => "q") 0)
      = .rejected (.duplicateEvent "req") :=
  duplicate_event_rejected "req" _ _ (mkStampedEvent "req" none 2 (fun _ => "p") 0)
    0 2 1 _ rfl rfl rfl (by decide) rfl rfl

/-- Value stored under an assetComputeClient key: the per-rendition index and
length stamp, or the batch-level client identity. -/
inductive ACMetaVal
  | idxLen (index : Nat) (length : Nat)
  | idOf (id : String)
  deriving DecidableEq, Repr

/-- A JavaScript object on the heap, as the stamping code observes it: a rendition
object (own fields plus an optional reference to its userData object) or a
userData object (own fields plus the assetComputeClient key). -/
inductive Obj
  | rendObj (fields : List (String × String)) (userData : Option Nat)
  | udObj (fields : List (String × String)) (assetComputeClient : Option ACMetaVal)
  deriving DecidableEq, Repr

/-- The heap: objects addressed by position; allocation appends. -/
abbrev Store := List Obj

/-- Fields contributed by spreading a userData reference: the fields of the
referenced userData object, nothing when the reference is absent (spreading
undefined yields an empty object). -/
def readUdFields (store : Store) (udRef : Option Nat) : List (String × String) :=
  match udRef with
  | some r =>
    match store[r]? with
    | some (.udObj f _) => f
    | _ => []
  | none => []

/-- A well-formed userData reference: absent, or pointing at a userData object. -/
def UdRefOk (store : Store) (udRef : Option Nat) : Prop :=
  match udRef with
  | none => True
  | some r => ∃ f a, store[r]? = some (Obj.udObj f a)

/-- One step of the renditions.map of process (src/lib/client.js lines 326-337)
under the explicit heap: read the rendition object and its userData, allocate the
new stamped userData object and then the new rendition object referring to it, and
return the reference to the new rendition.  Existing cells are never written. -/
def stampOne (len idx : Nat) (store : Store) (r : Nat) : Store × Nat :=
  match store[r]? with
  | some (.rendObj fields udRef) =>
    (store ++ [Obj.udObj (readUdFields store udRef) (some (.idxLen idx len)),
               Obj.rendObj fields (some store.length)],
     store.length + 1)
  | _ => (store, r)

/-- The full renditions.map: stamp each reference in order, threading the heap. -/
def stampList (len : Nat) : Nat → Store → List Nat → Store × List Nat
  | _, store, [] => (store, [])
  | idx, store, r :: rest =>
    let p1 := stampOne len idx store r
    let p2 := stampList len (idx + 1) p1.1 rest
    (p2.1, p1.2 :: p2.2)

/-- The batch userData stamp of process (src/lib/client.js lines 340-345) under the
explicit heap: allocate a new userData object copying the fields of the caller
object and overriding assetComputeClient with the client identity. -/
def stampUserDataRef (selfId : String) (store : Store) (u : Option Nat) : Store × Nat :=
  (store ++ [Obj.udObj (readUdFields store u) (some (.idOf selfId))], store.length)

/-- The stamping phase of process on the heap: stamp the renditions, then the batch
userData, returning the new heap, the new rendition references and the new
userData reference. -/
def processStamp (selfId : String) (store : Store) (rs : List Nat) (u : Option Nat) :
    Store × List Nat × Nat :=
  let p1 := stampList rs.length 0 store rs
  let p2 := stampUserDataRef selfId p1.1 u
  (p2.1, p1.2, p2.2)

theorem stampOne_spec (len idx : Nat) (store : Store) (r : Nat)
    (fields : List (String × String)) (udRef : Option Nat)
    (h : store[r]? = some (.rendObj fields udRef)) :
    stampOne len idx store r
      = (store ++ [Obj.udObj (readUdFields store udRef) (some (.idxLen idx len)),
                   Obj.rendObj fields (some store.length)],
         store.length + 1) := by
  simp [stampOne, h]

theorem stampOne_ext (len idx : Nat) (store : Store) (r : Nat) :
    ∃ t, (stampOne len idx store r).1 = store ++ t := by
  unfold stampOne
  cases h : store[r]? with
  | none => exact ⟨[], by simp⟩
  | some o =>
    cases o with
    | rendObj fields udRef => exact ⟨_, rfl⟩
    | udObj f a => exact ⟨[], by simp⟩

theorem stampList_ext (len : Nat) :
    ∀ (rs : List Nat) (idx : Nat) (store : Store),
      ∃ t, (stampList len idx store rs).1 = store ++ t := by
  intro rs
  induction rs with
  | nil => intro idx store; exact ⟨[], by simp [stampList]⟩
  | cons r rest ih =>
    intro idx store
    obtain ⟨t1, h1⟩ := stampOne_ext len idx store r
    obtain ⟨t2, h2⟩ := ih (idx + 1) (stampOne len idx store r).1
    refine ⟨t1 ++ t2, ?_⟩
    simp only [stampList]
    rw [h2, h1, List.append_assoc]

theorem UdRefOk_ext (store t : Store) (u : Option Nat) (h : UdRefOk store u) :
    UdRefOk (store ++ t) u := by
  cases u with
  | none => trivial
  | some r =>
    obtain ⟨f, a, hr⟩ := h
    have hlt : r < store.length := (List.getElem?_eq_some.mp hr).1
    exact ⟨f, a, by rw [List.getElem?_append_left hlt]; exact hr⟩

theorem readUdFields_ext (store t : Store) (u : Option Nat) (h : UdRefOk store u) :
    readUdFields (store ++ t) u = readUdFields store u := by
  cases u with
  | none => rfl
  | some r =>
    obtain ⟨f, a, hr⟩ := h
    have hlt : r < store.length := (List.getElem?_eq_some.mp hr).1
    simp [readUdFields, List.getElem?_append_left hlt]

theorem stampList_spec (len : Nat) :
    ∀ (rs : List Nat) (idx : Nat) (store : Store),
      (stampList len idx store rs).2.length = rs.length
      ∧ ∀ j r0 fields udRef, rs[j]? = some r0 →
          store[r0]? = some (.rendObj fields udRef) → UdRefOk store udRef →
          ∃ r1 nu, (stampList len idx store rs).2[j]? = some r1 ∧ store.length ≤ r1 ∧
            (stampList len idx store rs).1[r1]? = some (.rendObj fields (some nu)) ∧
            store.length ≤ nu ∧
            (stampList len idx store rs).1[nu]?
              = some (.udObj (readUdFields store udRef) (some (.idxLen (idx + j) len))) := by
  intro rs
  induction rs with
  | nil =>
    intro idx store
    refine ⟨rfl, ?_⟩
    intro j r0 fields udRef hj
    simp at hj
  | cons r rest ih =>
    intro idx store
    constructor
    · simp only [stampList, List.length_cons]
      rw [(ih (idx + 1) (stampOne len idx store r).1).1]
    · intro j r0 fields udRef hj hobj hud
      cases j with
      | zero =>
        have hr0 : r = r0 := by simpa using hj
        subst hr0
        have hone := stampOne_spec len idx store r fields udRef hobj
        obtain ⟨t2, h2⟩ := stampList_ext len rest (idx + 1) (stampOne len idx store r).1
        refine ⟨store.length + 1, store.length, ?_, by omega, ?_, by omega, ?_⟩
        · simp [stampList, hone]
        · simp only [stampList]
          rw [h2, hone]
          have hlt : store.length + 1 < (store ++
              [Obj.udObj (readUdFields store udRef) (some (.idxLen idx len)),
               Obj.rendObj fields (some store.length)]).length := by
            simp
          rw [List.getElem?_append_left hlt,
            List.getElem?_append_right (by omega)]
          simp
        · simp only [stampList]
          rw [h2, hone]
          have hlt : store.length < (store ++
              [Obj.udObj (readUdFields store udRef) (some (.idxLen idx len)),
               Obj.rendObj fields (some store.length)]).length := by
            simp
          rw [List.getElem?_append_left hlt,
            List.getElem?_append_right (by omega)]
          simp
      | succ k =>
        have hk : rest[k]? = some r0 := by simpa using hj
        obtain ⟨t1, h1⟩ := stampOne_ext len idx store r
        have hlt0 : r0 < store.length := (List.getElem?_eq_some.mp hobj).1
        have hobj1 : (stampOne len idx store r).1[r0]? = some (.rendObj fields udRef) := by
          rw [h1, List.getElem?_append_left hlt0]; exact hobj
        have hud1 : UdRefOk (stampOne len idx store r).1 udRef := by
          rw [h1]; exact UdRefOk_ext store t1 udRef hud
        obtain ⟨r1, nu, hget, hler1, hrend, hlenu, hudobj⟩ :=
          (ih (idx + 1) (stampOne len idx store r).1).2 k r0 fields udRef hk hobj1 hud1
        have hlen1 : store.length ≤ (stampOne len idx store r).1.length := by
          rw [h1]; simp
        refine ⟨r1, nu, ?_, by omega, ?_, by omega, ?_⟩
        · simpa [stampList] using hget
        · simpa [stampList] using hrend
        · have hre : readUdFields (stampOne len idx store r).1 udRef
              = readUdFields store udRef := by
            rw [h1]; exact readUdFields_ext store t1 udRef hud
          have hidx : idx + 1 + k = idx + (k + 1) := by omega
          rw [← hidx, ← hre]
          simpa [stampList] using hudobj

/-- C9: for every heap, renditions array (as references to well-formed rendition
objects) and optional userData object, the stamping phase of process leaves every
pre-existing heap cell unchanged (the caller objects are not mutated), produces a
rendition array of the same length whose entry at position i is a fresh object
carrying the original fields of rendition i and a fresh nested userData object
carrying the original userData fields with the assetComputeClient key set to the
index i and the array length, and produces a fresh batch userData object carrying
the original userData fields with the assetComputeClient key set to the client
identity. -/
theorem process_stamping_frame (selfId : String) (store : Store) (rs : List Nat)
    (u : Option Nat) :
    (∀ r : Nat, r < store.length → (processStamp selfId store rs u).1[r]? = store[r]?)
    ∧ (processStamp selfId store rs u).2.1.length = rs.length
    ∧ (∀ j r0 fields udRef, rs[j]? = some r0 →
        store[r0]? = some (.rendObj fields udRef) → UdRefOk store udRef →
        ∃ r1 nu, (processStamp selfId store rs u).2.1[j]? = some r1 ∧
          store.length ≤ r1 ∧
          (processStamp selfId store rs u).1[r1]? = some (.rendObj fields (some nu)) ∧
          store.length ≤ nu ∧
          (processStamp selfId store rs u).1[nu]?
            = some (.udObj (readUdFields store udRef) (some (.idxLen j rs.length))))
    ∧ (UdRefOk store u →
        store.length ≤ (processStamp selfId store rs u).2.2 ∧
        (processStamp selfId store rs u).1[(processStamp selfId store rs u).2.2]?
          = some (.udObj (readUdFields store u) (some (.idOf selfId)))) := by
  obtain ⟨t1, h1⟩ := stampList_ext rs.length rs 0 store
  have hspec := stampList_spec rs.length rs 0 store
  have hfinal : (processStamp selfId store rs u).1
      = (stampList rs.length 0 store rs).1 ++
        [Obj.udObj (readUdFields (stampList rs.length 0 store rs).1 u)
          (some (.idOf selfId))] := rfl
  have hlen1 : store.length ≤ (stampList rs.length 0 store rs).1.length := by
    rw [h1]; simp
  refine ⟨?_, ?_, ?_, ?_⟩
  · intro r hr
    rw [hfinal, List.getElem?_append_left (by omega), h1,
      List.getElem?_append_left hr]
  · exact hspec.1
  · intro j r0 fields udRef hj hobj hud
    obtain ⟨r1, nu, hget, hler1, hrend, hlenu, hudobj⟩ :=
      hspec.2 j r0 fields udRef hj hobj hud
    have hr1lt : r1 < (stampList rs.length 0 store rs).1.length :=
      (List.getElem?_eq_some.mp hrend).1
    have hnult : nu < (stampList rs.length 0 store rs).1.length :=
      (List.getElem?_eq_some.mp hudobj).1
    refine ⟨r1, nu, hget, hler1, ?_, hlenu, ?_⟩
    · rw [hfinal, List.getElem?_append_left hr1lt]; exact hrend
    · rw [hfinal, List.getElem?_append_left hnult]
      simpa using hudobj
  · intro hud
    have hudext : UdRefOk (stampList rs.length 0 store rs).1 u := by
      rw [h1]; exact UdRefOk_ext store t1 u hud
    have hre : readUdFields (stampList rs.length 0 store rs).1 u
        = readUdFields store u := by
      rw [h1]; exact readUdFields_ext store t1 u hud
    constructor
    · show store.length ≤ (stampList rs.length 0 store rs).1.length
      exact hlen1
    · rw [hfinal]
      show ((stampList rs.length 0 store rs).1 ++ _)[(stampList rs.length 0 store rs).1.length]?
        = _
      rw [List.getElem?_append_right (by omega)]
      simp [hre]

/-- Witness for the C9 theorem: a one-element heap holding one rendition object
with no userData, stamped for a batch of length 1; the original cell is unchanged
and the fresh objects carry the stamp. -/
theorem process_stamping_frame_witness :
    (processStamp "c" [Obj.rendObj [("name", "r.jpg")] none] [0] none).1[0]?
        = some (Obj.rendObj [("name", "r.jpg")] none)
    ∧ (∃ r1 nu, (processStamp "c" [Obj.rendObj [("name", "r.jpg")] none] [0] none).2.1[0]?
          = some r1 ∧ 1 ≤ r1 ∧
        (processStamp "c" [Obj.rendObj [("name", "r.jpg")] none] [0] none).1[r1]?
          = some (Obj.rendObj [("name", "r.jpg")] (some nu)) ∧ 1 ≤ nu ∧
        (processStamp "c" [Obj.rendObj [("name", "r.jpg")] none] [0] none).1[nu]?
          = some (Obj.udObj [] (some (.idxLen 0 1)))) := by
  have h := process_stamping_frame "c" [Obj.rendObj [("name", "r.jpg")] none] [0] none
  refine ⟨?_, ?_⟩
  · have := h.1 0 (by decide)
    rw [this]
    rfl
  · obtain ⟨r1, nu, hget, hler1, hrend, hlenu, hudobj⟩ :=
      h.2.2.1 0 0 [("name", "r.jpg")] none (by decide) (by decide) trivial
    exact ⟨r1, nu, hget, by simpa using hler1, hrend, by simpa using hlenu,
      by simpa using hudobj⟩

end AssetComputeClient
